import Mathlib

/-!
# Verification of `registers/mapper/main.go` (trillian-examples)

Shallow embedding of the reconciliation mapper in
`src/registers/mapper/main.go`, together with proofs about its
reconciliation policy, its store interaction and its error paths.

Modelling conventions:

* Go `interface{}` values decoded from JSON (`map[string]interface{}`,
  `[]interface{}`, strings, numbers, booleans, `nil`) are embedded as the
  inductive `JValue`.  A Go `map[string]interface{}` is embedded as an
  association list `List (String × JValue)`; Go maps have unique keys, so
  association lists with duplicate keys do not arise from the program.
  JSON numbers are embedded as `Int` (their numeric identity is never
  interpreted by the mapper, only compared for structural equality).
* Go `reflect.DeepEqual` on such values is embedded as `JValue.deepEqual`;
  on maps it is insensitive to binding order, exactly as `DeepEqual` is
  insensitive to Go's (unordered) map representation.
* `time.Time` values produced by `time.Parse(time.RFC3339, s)` are
  embedded as `Int` instants; the RFC 3339 parser itself is library code
  and is kept abstract as a parameter `parse : String → Option Int`
  (`none` embeds a parse error).  `t.Before u` / `t.After u` become
  `t < u` / `u < t`.
* `sha256.Sum256` is library code; the record store is keyed directly by
  the application key (sha256 is injective for all practical purposes and
  the program never inverts it).  The byte-level Trillian map interface is
  modelled separately (`GetLeavesResponse`, `mapper.getLeaf`) for the
  claims that are about leaf bytes.
* Store round trips (`json.Marshal` on write, `json.Unmarshal` on read)
  are lossless for the values the program stores, so the record-level
  store holds `record` values directly.
-/

namespace Mapper

/-- Embeds a Go `interface{}` value decoded from JSON: `nil`, `bool`,
`float64` (embedded as `Int`), `string`, `[]interface{}` and
`map[string]interface{}` (as an association list). -/
inductive JValue where
  | null : JValue
  | bool (b : Bool) : JValue
  | num (n : Int) : JValue
  | str (s : String) : JValue
  | arr (xs : List JValue) : JValue
  | obj (fields : List (String × JValue)) : JValue
deriving Repr

/-- An embedded Go `map[string]interface{}`. -/
abbrev Obj := List (String × JValue)

mutual

/-- Embeds `reflect.DeepEqual` on JSON-decoded Go values (main.go line 33).
Maps compare as unordered key→value mappings: each binding of one side must
have a deep-equal binding of the same key on the other side (on the
duplicate-free association lists that embed Go maps this is exactly
`DeepEqual`). -/
def JValue.deepEqual : JValue → JValue → Bool
  | .null, .null => true
  | .bool a, .bool b => a == b
  | .num a, .num b => a == b
  | .str a, .str b => a == b
  | .arr a, .arr b => JValue.deepEqualList a b
  | .obj a, .obj b => JValue.allSub a b && JValue.allSub b a
  | _, _ => false
termination_by a b => sizeOf a + sizeOf b
decreasing_by all_goals (simp_wf; try omega)

/-- Pointwise `deepEqual` on slices (`[]interface{}` values). -/
def JValue.deepEqualList : List JValue → List JValue → Bool
  | [], [] => true
  | x :: xs, y :: ys => JValue.deepEqual x y && JValue.deepEqualList xs ys
  | _, _ => false
termination_by a b => sizeOf a + sizeOf b
decreasing_by all_goals (simp_wf; try omega)

/-- Does `b` contain a binding of key `k` whose value is deep-equal to
`v`? -/
def JValue.findEq (k : String) (v : JValue) : List (String × JValue) → Bool
  | [] => false
  | (k2, v2) :: rest =>
      (k == k2 && JValue.deepEqual v v2) || JValue.findEq k v rest
termination_by b => sizeOf v + sizeOf b
decreasing_by all_goals (simp_wf; try omega)

/-- Is every binding of `a` matched by a deep-equal binding in `b`? -/
def JValue.allSub : List (String × JValue) → List (String × JValue) → Bool
  | [], _ => true
  | (k, v) :: rest, b => JValue.findEq k v b && JValue.allSub rest b
termination_by a b => sizeOf a + sizeOf b
decreasing_by all_goals (simp_wf; try omega)

end

/-- Embeds `reflect.DeepEqual` specialised to two `map[string]interface{}`
values, as used on `Items` entries by `record.add`. -/
def itemEq (a b : Obj) : Bool := JValue.deepEqual (.obj a) (.obj b)

/-- Is an item deep-equal to some element of `items`?  (The membership test
performed by the loop in `record.add`, main.go lines 32–36.) -/
def itemMem (i : Obj) (items : List Obj) : Bool := items.any fun ii => itemEq i ii

/-- Embeds `type record struct { Entry map[string]interface{}; Items
[]map[string]interface{} }` (main.go lines 25–28). -/
structure record where
  Entry : Obj
  Items : List Obj
deriving Repr

/-- Embeds `func (r *record) add(i map[string]interface{})` (main.go lines
31–38): the item is appended only if no `reflect.DeepEqual` copy of it is
already present in `r.Items`. -/
def record.add (r : record) (i : Obj) : record :=
  if itemMem i r.Items then r else { r with Items := r.Items ++ [i] }

/-- Looks up a key in an embedded Go map and asserts the value to
`map[string]interface{}`: `none` embeds the cases where the Go type
assertion `l[k].(map[string]interface{})` panics (key absent, or value not
an object). -/
def lookupObj (l : Obj) (k : String) : Option Obj :=
  match l.lookup k with
  | some (JValue.obj o) => some o
  | _ => none

/-- Looks up a key in an embedded Go map and asserts the value to `string`:
`none` embeds the cases where `l[k].(string)` panics. -/
def lookupStr (l : Obj) (k : String) : Option String :=
  match l.lookup k with
  | some (JValue.str s) => some s
  | _ => none

/-- The record store as the mapper sees it through `mapInfo.get` /
`mapInfo.saveRecord`: one record per key (the `sha256` store index is in
bijection with the key, see the module comment). -/
abbrev Store := List (String × record)

/-- Reads the current record for a key (embeds `mapInfo.get` →
`mapInfo.getLeaf`, main.go lines 80–119: `none` is the `nil, nil` "absent"
result). -/
def Store.get? (st : Store) (k : String) : Option record := st.lookup k

/-- The store after `mapInfo.saveRecord(key, value)` (main.go lines 56–78):
an unconditional single-key upsert. -/
def Store.set (st : Store) (k : String) (v : record) : Store :=
  match st with
  | [] => [(k, v)]
  | (k', v') :: rest => if k' = k then (k, v) :: rest else (k', v') :: Store.set rest k v

/-- How one call to `logScanner.Leaf` ends: a normal return (`nil` or an
error handed back to the scan driver) or a runtime panic from a failed Go
type assertion. -/
inductive LeafOutcome where
  | ok : LeafOutcome
  | errReturn : LeafOutcome
  | panicked : LeafOutcome
deriving Repr, DecidableEq

/-- Result of processing one log leaf: the outcome, the store afterwards,
and the list of `SetLeaves` writes (key and record) the call issued. -/
structure StepResult where
  outcome : LeafOutcome
  store : Store
  writes : List (String × record)
deriving Repr

/-- Result of the decode prefix of `logScanner.Leaf` (main.go lines
126–139): `json.Unmarshal`, the `l["Entry"]`, `e["entry-timestamp"]`,
`e["key"]`, `l["Item"]` type assertions and `time.Parse`, in source
order. -/
inductive DecodeResult where
  | errReturn : DecodeResult
  | panicked : DecodeResult
  | ok (k : String) (t : Int) (e : Obj) (i : Obj) : DecodeResult
deriving Repr

/-- The decode prefix of `logScanner.Leaf` (main.go lines 126–139).  The
input is the result of `json.Unmarshal(leaf.LeafValue, &l)`:
`Except.error` embeds malformed JSON (or a non-object payload), `Except.ok
l` the decoded map.  `parse` embeds `time.Parse(time.RFC3339, ·)`. -/
def decodeLeaf (parse : String → Option Int) (lv : Except String Obj) : DecodeResult :=
  match lv with
  | .error _ => .errReturn
  | .ok l =>
    match lookupObj l "Entry" with
    | none => .panicked
    | some e =>
      match lookupStr e "entry-timestamp" with
      | none => .panicked
      | some ts =>
        match parse ts with
        | none => .errReturn
        | some t =>
          match lookupStr e "key" with
          | none => .panicked
          | some k =>
            match lookupObj l "Item" with
            | none => .panicked
            | some i => .ok k t e i

/-- Embeds `func (s *logScanner) Leaf(leaf *trillian.LogLeaf) error`
(main.go lines 125–169) acting on the record store: decode the leaf, read
the current record, and create (line 146), skip (line 156), replace (line
160) or merge (lines 165–166) according to the three-way timestamp
comparison.  `mapInfo.createRecord` (lines 51–54) is the
`⟨e, [i]⟩` record written by the create and replace branches. -/
def logScanner.Leaf (parse : String → Option Int) (st : Store)
    (lv : Except String Obj) : StepResult :=
  match decodeLeaf parse lv with
  | .errReturn => ⟨.errReturn, st, []⟩
  | .panicked => ⟨.panicked, st, []⟩
  | .ok k t e i =>
    match Store.get? st k with
    | none =>
      let r : record := ⟨e, [i]⟩
      ⟨.ok, st.set k r, [(k, r)]⟩
    | some cr =>
      match lookupStr cr.Entry "entry-timestamp" with
      | none => ⟨.panicked, st, []⟩
      | some cts =>
        match parse cts with
        | none => ⟨.errReturn, st, []⟩
        | some ct =>
          if t < ct then ⟨.ok, st, []⟩
          else if ct < t then
            let r : record := ⟨e, [i]⟩
            ⟨.ok, st.set k r, [(k, r)]⟩
          else
            let r := cr.add i
            ⟨.ok, st.set k r, [(k, r)]⟩

/-- States that no two structurally-equal Items are present: the Items of a
record are pairwise distinct under `reflect.DeepEqual`. -/
def distinctItems (items : List Obj) : Prop :=
  items.Pairwise fun a b => itemEq a b = false

/-- Modelled from the spec: the scan driver `trillian_client.Scan` (a
package of this repository whose source is not part of the mapper file)
feeds the log's leaves to `logScanner.Leaf` strictly in log order and
"aborts the entire scan rather than skipping the bad leaf" on the first
failing leaf (spec §4.3, §7); a panic likewise terminates the process at
that leaf.  Returns the store when the scan stops. -/
def runScan (parse : String → Option Int) (st : Store) : List (Except String Obj) → Store
  | [] => st
  | lv :: rest =>
    let r := logScanner.Leaf parse st lv
    match r.outcome with
    | .ok => runScan parse r.store rest
    | _ => r.store

/-! ## Lemmas about `deepEqual` -/

theorem JValue.findEq_of_mem {k : String} {v : JValue} {b : Obj}
    (hmem : (k, v) ∈ b) (hv : JValue.deepEqual v v = true) :
    JValue.findEq k v b = true := by
  induction b with
  | nil => simp at hmem
  | cons p rest ih =>
    rcases List.mem_cons.mp hmem with h | h
    · obtain ⟨k2, v2⟩ := p
      obtain ⟨rfl, rfl⟩ := Prod.mk.injEq .. ▸ h
      simp [JValue.findEq, hv]
    · obtain ⟨k2, v2⟩ := p
      simp [JValue.findEq, ih h]

theorem JValue.allSub_of_forall {l b : Obj}
    (h : ∀ p ∈ l, JValue.findEq p.1 p.2 b = true) : JValue.allSub l b = true := by
  induction l with
  | nil => simp [JValue.allSub]
  | cons p rest ih =>
    obtain ⟨k, v⟩ := p
    have h1 := h (k, v) (by simp)
    simp only [JValue.allSub]
    simp [h1, ih fun q hq => h q (by simp [hq])]

/-- Reflexivity of `reflect.DeepEqual` on JSON-decoded values. -/
theorem JValue.deepEqual_refl (v : JValue) : JValue.deepEqual v v = true := by
  have main : ∀ (n : Nat) (v : JValue), sizeOf v ≤ n → JValue.deepEqual v v = true := by
    intro n
    induction n with
    | zero => intro v hv; exfalso; cases v <;> simp at hv
    | succ n ih =>
      intro v hv
      match v with
      | .null => simp [JValue.deepEqual]
      | .bool b => simp [JValue.deepEqual]
      | .num m => simp [JValue.deepEqual]
      | .str s => simp [JValue.deepEqual]
      | .arr xs =>
        have hxs : sizeOf xs ≤ n := by simp at hv; omega
        have hmem : ∀ x ∈ xs, JValue.deepEqual x x = true := by
          intro x hx
          have := List.sizeOf_lt_of_mem hx
          exact ih x (by omega)
        have hlist : ∀ (l : List JValue), (∀ x ∈ l, JValue.deepEqual x x = true) →
            JValue.deepEqualList l l = true := by
          intro l hl
          induction l with
          | nil => simp [JValue.deepEqualList]
          | cons a as iha =>
            simp [JValue.deepEqualList, hl a (by simp),
              iha fun x hx => hl x (by simp [hx])]
        simp [JValue.deepEqual, hlist xs hmem]
      | .obj fs =>
        have hfs : sizeOf fs ≤ n := by simp at hv; omega
        have hsub : JValue.allSub fs fs = true := by
          refine JValue.allSub_of_forall fun p hp => ?_
          obtain ⟨k2, v2⟩ := p
          refine JValue.findEq_of_mem hp (ih v2 ?_)
          have := List.sizeOf_lt_of_mem hp
          simp at this
          omega
        simp [JValue.deepEqual, hsub]
  exact main (sizeOf v) v le_rfl

theorem itemEq_refl (i : Obj) : itemEq i i = true :=
  JValue.deepEqual_refl (.obj i)

theorem itemEq_symm (a b : Obj) : itemEq a b = itemEq b a := by
  simp only [itemEq, JValue.deepEqual]
  exact Bool.and_comm _ _

/-! ## Lemmas about `itemMem` and `record.add` -/

theorem itemMem_append_self (i : Obj) (items : List Obj) :
    itemMem i (items ++ [i]) = true := by
  simp [itemMem, List.any_append, itemEq_refl]

theorem itemMem_append_mono {x : Obj} {items : List Obj} (y : Obj)
    (h : itemMem x items = true) : itemMem x (items ++ [y]) = true := by
  simp [itemMem, List.any_append]
  left
  simpa [itemMem] using h

theorem record.add_Entry (r : record) (i : Obj) : (r.add i).Entry = r.Entry := by
  unfold record.add
  split <;> rfl

theorem record.add_of_mem {r : record} {i : Obj} (h : itemMem i r.Items = true) :
    r.add i = r := by
  simp [record.add, h]

theorem record.add_of_not_mem {r : record} {i : Obj} (h : itemMem i r.Items = false) :
    (r.add i).Items = r.Items ++ [i] := by
  simp [record.add, h]

theorem record.itemMem_add_self (r : record) (i : Obj) :
    itemMem i (r.add i).Items = true := by
  unfold record.add
  split
  · assumption
  · exact itemMem_append_self i r.Items

theorem record.itemMem_add_mono {r : record} {x : Obj} (i : Obj)
    (h : itemMem x r.Items = true) : itemMem x (r.add i).Items = true := by
  unfold record.add
  split
  · exact h
  · exact itemMem_append_mono i h

/-! ## Lemmas about the record store -/

theorem Store.get?_nil (k : String) : Store.get? [] k = none := rfl

theorem Store.get?_cons (k k2 : String) (v2 : record) (rest : Store) :
    Store.get? ((k2, v2) :: rest) k = if k = k2 then some v2 else Store.get? rest k := by
  simp only [Store.get?, List.lookup]
  by_cases h : k = k2
  · subst h; simp
  · simp [beq_eq_false_iff_ne.mpr h, h]

theorem Store.get?_set_self (st : Store) (k : String) (v : record) :
    (st.set k v).get? k = some v := by
  induction st with
  | nil => simp [Store.set, Store.get?_cons]
  | cons p rest ih =>
    obtain ⟨k', v'⟩ := p
    by_cases h : k' = k
    · simp [Store.set, h, Store.get?_cons]
    · simp [Store.set, h, Store.get?_cons, Ne.symm h, ih]

theorem Store.get?_set_ne (st : Store) {k k' : String} (v : record) (h : k' ≠ k) :
    (st.set k v).get? k' = st.get? k' := by
  induction st with
  | nil => simp [Store.set, Store.get?_cons, Store.get?_nil, h]
  | cons p rest ih =>
    obtain ⟨k2, v2⟩ := p
    by_cases h2 : k2 = k
    · subst h2
      simp [Store.set, Store.get?_cons, h]
    · simp [Store.set, h2, Store.get?_cons, ih]

theorem Store.set_same {st : Store} {k : String} {v : record}
    (h : st.get? k = some v) : st.set k v = st := by
  induction st with
  | nil => simp [Store.get?_nil] at h
  | cons p rest ih =>
    obtain ⟨k2, v2⟩ := p
    by_cases h2 : k2 = k
    · subst h2
      simp [Store.get?_cons] at h
      simp [Store.set, h]
    · rw [Store.get?_cons] at h
      simp [Ne.symm h2] at h
      simp [Store.set, h2, ih h]

/-! ## Lemmas about `logScanner.Leaf` -/

/-- A decoded observation `(k, t, e, i)` carries, inside its entry `e`, the
timestamp string that parses to `t`. -/
theorem decodeLeaf_ok_ts {parse : String → Option Int} {lv : Except String Obj}
    {k : String} {t : Int} {e i : Obj} (hd : decodeLeaf parse lv = .ok k t e i) :
    ∃ ts, lookupStr e "entry-timestamp" = some ts ∧ parse ts = some t := by
  unfold decodeLeaf at hd
  split at hd
  · simp at hd
  · split at hd
    · simp at hd
    · split at hd
      · simp at hd
      · next ts hts =>
        split at hd
        · simp at hd
        · split at hd
          · simp at hd
          · split at hd
            · simp at hd
            · injection hd with h1 h2 h3 h4
              subst h1; subst h2; subst h3; subst h4
              exact ⟨ts, hts, by assumption⟩

/-- The observation `(k, t, i)` is settled in store `st`: the record stored
for `k` carries a parseable timestamp at least `t`, and when the timestamps
are equal the item is already present. -/
def obsSettled (parse : String → Option Int) (st : Store) (k : String) (t : Int)
    (i : Obj) : Prop :=
  ∃ cr s ct, st.get? k = some cr ∧
    lookupStr cr.Entry "entry-timestamp" = some s ∧ parse s = some ct ∧
    t ≤ ct ∧ (t = ct → itemMem i cr.Items = true)

/-- A failing call to `logScanner.Leaf` leaves the store untouched (every
error return and panic happens before `SetLeaves`). -/
theorem Leaf_store_of_ne_ok {parse : String → Option Int} {st : Store}
    {lv : Except String Obj} (h : (logScanner.Leaf parse st lv).outcome ≠ .ok) :
    (logScanner.Leaf parse st lv).store = st := by
  rcases hdec : decodeLeaf parse lv with _ | _ | ⟨k, t, e, i⟩
  · simp [logScanner.Leaf, hdec]
  · simp [logScanner.Leaf, hdec]
  · simp only [logScanner.Leaf, hdec] at h ⊢
    cases hg : Store.get? st k with
    | none => simp [hg] at h
    | some cr =>
      cases hcs : lookupStr cr.Entry "entry-timestamp" with
      | none => simp [hg, hcs]
      | some s =>
        cases hcp : parse s with
        | none => simp [hg, hcs, hcp]
        | some ct =>
          by_cases hlt : t < ct
          · simp [hg, hcs, hcp, hlt] at h
          · by_cases hgt : ct < t
            · simp [hg, hcs, hcp, hlt, hgt] at h
            · simp [hg, hcs, hcp, hlt, hgt] at h

/-- A successful call to `logScanner.Leaf` got through the decode prefix. -/
theorem Leaf_ok_decode {parse : String → Option Int} {st : Store}
    {lv : Except String Obj} (h : (logScanner.Leaf parse st lv).outcome = .ok) :
    ∃ k t e i, decodeLeaf parse lv = .ok k t e i := by
  rcases hdec : decodeLeaf parse lv with _ | _ | ⟨k, t, e, i⟩
  · simp [logScanner.Leaf, hdec] at h
  · simp [logScanner.Leaf, hdec] at h
  · exact ⟨k, t, e, i, rfl⟩

/-- After a successful `logScanner.Leaf` call, the observation it processed
is settled in the resulting store. -/
theorem Leaf_settles {parse : String → Option Int} {st : Store}
    {lv : Except String Obj} {k : String} {t : Int} {e i : Obj}
    (hd : decodeLeaf parse lv = .ok k t e i)
    (hok : (logScanner.Leaf parse st lv).outcome = .ok) :
    obsSettled parse (logScanner.Leaf parse st lv).store k t i := by
  obtain ⟨ts, hts, hpt⟩ := decodeLeaf_ok_ts hd
  simp only [logScanner.Leaf, hd] at hok ⊢
  cases hg : Store.get? st k with
  | none =>
    refine ⟨⟨e, [i]⟩, ts, t, ?_, hts, hpt, le_refl t, fun _ => ?_⟩
    · simp [hg, Store.get?_set_self]
    · simp [hg, itemMem, itemEq_refl]
  | some cr =>
    cases hcs : lookupStr cr.Entry "entry-timestamp" with
    | none => simp [hg, hcs] at hok
    | some s =>
      cases hcp : parse s with
      | none => simp [hg, hcs, hcp] at hok
      | some ct =>
        by_cases hlt : t < ct
        · refine ⟨cr, s, ct, ?_, hcs, hcp, le_of_lt hlt, fun heq => absurd heq (ne_of_lt hlt)⟩
          simp [hg, hcs, hcp, hlt]
        · by_cases hgt : ct < t
          · refine ⟨⟨e, [i]⟩, ts, t, ?_, hts, hpt, le_refl t, fun _ => ?_⟩
            · simp [hg, hcs, hcp, hlt, hgt, Store.get?_set_self]
            · simp [itemMem, itemEq_refl]
          · refine ⟨cr.add i, s, ct, ?_, ?_, hcp, le_of_not_lt hgt, fun _ => ?_⟩
            · simp [hg, hcs, hcp, hlt, hgt, Store.get?_set_self]
            · rw [record.add_Entry]; exact hcs
            · exact record.itemMem_add_self cr i

/-- One `logScanner.Leaf` call preserves settledness of every observation
(whatever the call's own outcome). -/
theorem Leaf_preserves_settled {parse : String → Option Int} {st : Store}
    {lv : Except String Obj} {k' : String} {t' : Int} {i' : Obj}
    (h : obsSettled parse st k' t' i') :
    obsSettled parse (logScanner.Leaf parse st lv).store k' t' i' := by
  obtain ⟨cr0, s0, ct0, hg0, hs0, hp0, hle0, hmem0⟩ := h
  rcases hdec : decodeLeaf parse lv with _ | _ | ⟨k, t, e, i⟩
  · exact ⟨cr0, s0, ct0, by simp [logScanner.Leaf, hdec]; exact hg0, hs0, hp0, hle0, hmem0⟩
  · exact ⟨cr0, s0, ct0, by simp [logScanner.Leaf, hdec]; exact hg0, hs0, hp0, hle0, hmem0⟩
  · simp only [logScanner.Leaf, hdec]
    obtain ⟨ts, hts, hpt⟩ := decodeLeaf_ok_ts hdec
    cases hg : Store.get? st k with
    | none =>
      by_cases hkk : k' = k
      · subst hkk
        rw [hg0] at hg
        exact absurd hg (by simp)
      · exact ⟨cr0, s0, ct0, by simp; rw [Store.get?_set_ne _ _ hkk]; exact hg0,
          hs0, hp0, hle0, hmem0⟩
    | some cr =>
      cases hcs : lookupStr cr.Entry "entry-timestamp" with
      | none => exact ⟨cr0, s0, ct0, by simp [hg, hcs]; exact hg0, hs0, hp0, hle0, hmem0⟩
      | some s =>
        cases hcp : parse s with
        | none => exact ⟨cr0, s0, ct0, by simp [hg, hcs, hcp]; exact hg0, hs0, hp0, hle0, hmem0⟩
        | some ct =>
          by_cases hlt : t < ct
          · exact ⟨cr0, s0, ct0, by simp [hg, hcs, hcp, hlt]; exact hg0, hs0, hp0, hle0, hmem0⟩
          · by_cases hkk : k' = k
            · subst hkk
              rw [hg0] at hg
              injection hg with hcr
              subst hcr
              rw [hs0] at hcs
              injection hcs with hss
              subst hss
              rw [hp0] at hcp
              injection hcp with hctct
              subst hctct
              by_cases hgt : ct0 < t
              · refine ⟨⟨e, [i]⟩, ts, t, ?_, hts, hpt, ?_, fun heq => ?_⟩
                · simp [hs0, hp0, hlt, hgt, Store.get?_set_self]
                · exact le_of_lt (lt_of_le_of_lt hle0 hgt)
                · exact absurd heq (ne_of_lt (lt_of_le_of_lt hle0 hgt))
              · have heqt : t = ct0 := le_antisymm (le_of_not_lt hgt) (le_of_not_lt hlt)
                refine ⟨cr0.add i, s0, ct0, ?_, ?_, hp0, hle0, fun heq => ?_⟩
                · simp [hs0, hp0, hlt, hgt, Store.get?_set_self]
                · rw [record.add_Entry]; exact hs0
                · exact record.itemMem_add_mono i (hmem0 heq)
            · by_cases hgt : ct < t
              · exact ⟨cr0, s0, ct0,
                  by simp [hg, hcs, hcp, hlt, hgt]; rw [Store.get?_set_ne _ _ hkk]; exact hg0,
                  hs0, hp0, hle0, hmem0⟩
              · exact ⟨cr0, s0, ct0,
                  by simp [hg, hcs, hcp, hlt, hgt]; rw [Store.get?_set_ne _ _ hkk]; exact hg0,
                  hs0, hp0, hle0, hmem0⟩

/-- Replaying an observation that is already settled succeeds and leaves the
store byte-for-byte unchanged. -/
theorem Leaf_replay {parse : String → Option Int} {st : Store}
    {lv : Except String Obj} {k : String} {t : Int} {e i : Obj}
    (hd : decodeLeaf parse lv = .ok k t e i)
    (h : obsSettled parse st k t i) :
    (logScanner.Leaf parse st lv).outcome = .ok ∧
      (logScanner.Leaf parse st lv).store = st := by
  obtain ⟨cr, s, ct, hg, hs, hp, hle, hmem⟩ := h
  simp only [logScanner.Leaf, hd, hg, hs, hp]
  by_cases hlt : t < ct
  · simp [hlt]
  · have heq : t = ct := le_antisymm hle (le_of_not_lt hlt)
    subst heq
    have hm := hmem rfl
    simp [lt_irrefl, record.add_of_mem hm, Store.set_same hg]

/-- A whole scan preserves settledness of every observation. -/
theorem runScan_preserves_settled {parse : String → Option Int} {k' : String}
    {t' : Int} {i' : Obj} :
    ∀ (ls : List (Except String Obj)) (st : Store), obsSettled parse st k' t' i' →
      obsSettled parse (runScan parse st ls) k' t' i' := by
  intro ls
  induction ls with
  | nil => intro st h; exact h
  | cons lv rest ih =>
    intro st h
    simp only [runScan]
    cases ho : (logScanner.Leaf parse st lv).outcome with
    | ok => simp only [ho]; exact ih _ (Leaf_preserves_settled h)
    | errReturn => simp only [ho]; exact Leaf_preserves_settled h
    | panicked => simp only [ho]; exact Leaf_preserves_settled h

/-! ## Concrete material for the closed examples and witnesses -/

/-- Stand-in instantiation of the abstract RFC 3339 parser for closed
examples: maps three timestamp strings to ordered instants, everything else
to a parse failure. -/
def demoParse : String → Option Int
  | "2019" => some 2019
  | "2020" => some 2020
  | "2021" => some 2021
  | _ => none

/-- The entry object `{"key": key, "entry-timestamp": ts}`. -/
def demoEntry (key ts : String) : Obj :=
  [("key", .str key), ("entry-timestamp", .str ts)]

/-- The item object `{"v": n}`. -/
def demoItem (n : Int) : Obj := [("v", .num n)]

/-- A well-formed log-leaf payload `{"Entry": {...}, "Item": {"v": n}}`. -/
def demoLeaf (key ts : String) (n : Int) : Except String Obj :=
  .ok [("Entry", .obj (demoEntry key ts)), ("Item", .obj (demoItem n))]

/-! ## The claims -/

/-- Claim C1: when the incoming observation's timestamp equals the stored
record's entry timestamp, `logScanner.Leaf` merges: it keeps the stored
Entry, appends the new item only if no deep-equal item is already present
(first occurrence kept), and persists the possibly unchanged record with
one write.  Concretely: equal-timestamp observations of distinct items A
then B yield Items `[A, B]`; the same item A twice yields Items `[A]`. -/
theorem claim_C1_equal_timestamp_merge
    (parse : String → Option Int) (st : Store) (lv : Except String Obj)
    (k : String) (t : Int) (e i : Obj) (cr : record) (s : String)
    (hd : decodeLeaf parse lv = .ok k t e i)
    (hg : st.get? k = some cr)
    (hs : lookupStr cr.Entry "entry-timestamp" = some s)
    (hp : parse s = some t) :
    logScanner.Leaf parse st lv = ⟨.ok, st.set k (cr.add i), [(k, cr.add i)]⟩ ∧
    (cr.add i).Entry = cr.Entry ∧
    (itemMem i cr.Items = true → cr.add i = cr) ∧
    (itemMem i cr.Items = false → (cr.add i).Items = cr.Items ++ [i]) ∧
    runScan demoParse [] [demoLeaf "k1" "2020" 1, demoLeaf "k1" "2020" 2] =
      [("k1", ⟨demoEntry "k1" "2020", [demoItem 1, demoItem 2]⟩)] ∧
    runScan demoParse [] [demoLeaf "k1" "2020" 1, demoLeaf "k1" "2020" 1] =
      [("k1", ⟨demoEntry "k1" "2020", [demoItem 1]⟩)] := by
  refine ⟨?_, record.add_Entry cr i, fun hm => record.add_of_mem hm,
    fun hm => record.add_of_not_mem hm, ?_, ?_⟩
  · simp [logScanner.Leaf, hd, hg, hs, hp, lt_irrefl]
  · simp [runScan, logScanner.Leaf, decodeLeaf, demoLeaf, demoParse, demoEntry, demoItem,
      lookupObj, lookupStr, Store.get?, Store.set, record.add, itemMem, itemEq,
      JValue.deepEqual, JValue.allSub, JValue.findEq, List.lookup]
  · simp [runScan, logScanner.Leaf, decodeLeaf, demoLeaf, demoParse, demoEntry, demoItem,
      lookupObj, lookupStr, Store.get?, Store.set, record.add, itemMem, itemEq,
      JValue.deepEqual, JValue.allSub, JValue.findEq, List.lookup]

/-- Witness for claim C1 at a concrete merge. -/
theorem claim_C1_witness :
    (logScanner.Leaf demoParse [("k1", ⟨demoEntry "k1" "2020", [demoItem 1]⟩)]
      (demoLeaf "k1" "2020" 2)).outcome = .ok := by
  have h := (claim_C1_equal_timestamp_merge demoParse
      [("k1", ⟨demoEntry "k1" "2020", [demoItem 1]⟩)] (demoLeaf "k1" "2020" 2)
      "k1" 2020 (demoEntry "k1" "2020") (demoItem 2)
      ⟨demoEntry "k1" "2020", [demoItem 1]⟩ "2020"
      (by simp [decodeLeaf, demoLeaf, demoParse, demoEntry, demoItem, lookupObj,
        lookupStr, List.lookup])
      (by simp [Store.get?_cons])
      (by simp [lookupStr, demoEntry, List.lookup])
      (by simp [demoParse])).1
  rw [h]

/-- Claim C2: an observation strictly older than the stored record's
timestamp is a pure no-op — normal return, store unchanged, no `SetLeaves`
write issued. -/
theorem claim_C2_stale_noop
    (parse : String → Option Int) (st : Store) (lv : Except String Obj)
    (k : String) (t : Int) (e i : Obj) (cr : record) (s : String) (ct : Int)
    (hd : decodeLeaf parse lv = .ok k t e i)
    (hg : st.get? k = some cr)
    (hs : lookupStr cr.Entry "entry-timestamp" = some s)
    (hp : parse s = some ct)
    (hlt : t < ct) :
    logScanner.Leaf parse st lv = ⟨.ok, st, []⟩ := by
  simp [logScanner.Leaf, hd, hg, hs, hp, hlt]

/-- Witness for claim C2 at a concrete stale observation. -/
theorem claim_C2_witness :
    logScanner.Leaf demoParse [("k1", ⟨demoEntry "k1" "2020", [demoItem 1]⟩)]
      (demoLeaf "k1" "2019" 9) =
      ⟨.ok, [("k1", ⟨demoEntry "k1" "2020", [demoItem 1]⟩)], []⟩ :=
  claim_C2_stale_noop demoParse _ _ "k1" 2019 (demoEntry "k1" "2019") (demoItem 9)
    ⟨demoEntry "k1" "2020", [demoItem 1]⟩ "2020" 2020
    (by simp [decodeLeaf, demoLeaf, demoParse, demoEntry, demoItem, lookupObj,
      lookupStr, List.lookup])
    (by simp [Store.get?_cons])
    (by simp [lookupStr, demoEntry, List.lookup])
    (by simp [demoParse])
    (by norm_num)

/-- Claim C3: an observation strictly newer than the stored record's
timestamp fully replaces the record — the persisted record carries the new
Entry and exactly the singleton Items `[i]`; the old items are gone. -/
theorem claim_C3_newer_replaces
    (parse : String → Option Int) (st : Store) (lv : Except String Obj)
    (k : String) (t : Int) (e i : Obj) (cr : record) (s : String) (ct : Int)
    (hd : decodeLeaf parse lv = .ok k t e i)
    (hg : st.get? k = some cr)
    (hs : lookupStr cr.Entry "entry-timestamp" = some s)
    (hp : parse s = some ct)
    (hgt : ct < t) :
    logScanner.Leaf parse st lv = ⟨.ok, st.set k ⟨e, [i]⟩, [(k, ⟨e, [i]⟩)]⟩ := by
  simp [logScanner.Leaf, hd, hg, hs, hp, lt_asymm hgt, hgt]

/-- Witness for claim C3 at a concrete replacement. -/
theorem claim_C3_witness :
    logScanner.Leaf demoParse [("k1", ⟨demoEntry "k1" "2020", [demoItem 1, demoItem 2]⟩)]
      (demoLeaf "k1" "2021" 3) =
      ⟨.ok, [("k1", ⟨demoEntry "k1" "2021", [demoItem 3]⟩)],
        [("k1", ⟨demoEntry "k1" "2021", [demoItem 3]⟩)]⟩ := by
  have h := claim_C3_newer_replaces demoParse
    [("k1", ⟨demoEntry "k1" "2020", [demoItem 1, demoItem 2]⟩)] (demoLeaf "k1" "2021" 3)
    "k1" 2021 (demoEntry "k1" "2021") (demoItem 3)
    ⟨demoEntry "k1" "2020", [demoItem 1, demoItem 2]⟩ "2020" 2020
    (by simp [decodeLeaf, demoLeaf, demoParse, demoEntry, demoItem, lookupObj,
      lookupStr, List.lookup])
    (by simp [Store.get?_cons])
    (by simp [lookupStr, demoEntry, List.lookup])
    (by simp [demoParse])
    (by norm_num)
  rw [h]
  simp [Store.set]

/-- Claim C4: when the store reports no current record for the key, the
observation always creates and persists a record with the observed Entry
and the singleton Items `[i]`. -/
theorem claim_C4_absent_creates
    (parse : String → Option Int) (st : Store) (lv : Except String Obj)
    (k : String) (t : Int) (e i : Obj)
    (hd : decodeLeaf parse lv = .ok k t e i)
    (hg : st.get? k = none) :
    logScanner.Leaf parse st lv = ⟨.ok, st.set k ⟨e, [i]⟩, [(k, ⟨e, [i]⟩)]⟩ := by
  simp [logScanner.Leaf, hd, hg]

/-- Witness for claim C4 at a concrete creation. -/
theorem claim_C4_witness :
    logScanner.Leaf demoParse [] (demoLeaf "k1" "2020" 1) =
      ⟨.ok, [("k1", ⟨demoEntry "k1" "2020", [demoItem 1]⟩)],
        [("k1", ⟨demoEntry "k1" "2020", [demoItem 1]⟩)]⟩ := by
  have h := claim_C4_absent_creates demoParse [] (demoLeaf "k1" "2020" 1)
    "k1" 2020 (demoEntry "k1" "2020") (demoItem 1)
    (by simp [decodeLeaf, demoLeaf, demoParse, demoEntry, demoItem, lookupObj,
      lookupStr, List.lookup])
    rfl
  rw [h]
  simp [Store.set]

/-- Claim C5: replaying the same ordered leaf sequence is idempotent — from
any starting store, running the scan a second time from the first run's
final store reproduces that store exactly (hence the same record per
key). -/
theorem claim_C5_replay_idempotent (parse : String → Option Int) (st : Store)
    (ls : List (Except String Obj)) :
    runScan parse (runScan parse st ls) ls = runScan parse st ls := by
  induction ls generalizing st with
  | nil => rfl
  | cons lv rest ih =>
    by_cases h : (logScanner.Leaf parse st lv).outcome = .ok
    · have h1 : runScan parse st (lv :: rest) =
          runScan parse (logScanner.Leaf parse st lv).store rest := by
        simp only [runScan, h]
      obtain ⟨k, t, e, i, hdec⟩ := Leaf_ok_decode h
      have hset := Leaf_settles hdec h
      have hS1 := runScan_preserves_settled rest _ hset
      have hreplay := Leaf_replay hdec hS1
      have h2 : runScan parse
          (runScan parse (logScanner.Leaf parse st lv).store rest) (lv :: rest) =
          runScan parse (logScanner.Leaf parse st lv).store rest := by
        simp only [runScan, hreplay.1, hreplay.2]
        exact ih _
      rw [h1]
      exact h2
    · have hst := Leaf_store_of_ne_ok h
      have h1 : runScan parse st (lv :: rest) = st := by
        simp only [runScan]
        cases ho : (logScanner.Leaf parse st lv).outcome with
        | ok => exact absurd ho h
        | errReturn => exact hst
        | panicked => exact hst
      rw [h1]
      exact h1

/-- Claim C6: every branch of the reconciliation except the stale no-op
issues exactly one `SetLeaves` write carrying the computed record; the
equal-timestamp merge writes even when the incoming item was a structural
duplicate and the record is unchanged. -/
theorem claim_C6_exactly_one_write
    (parse : String → Option Int) (st : Store) (lv : Except String Obj)
    (k : String) (t : Int) (e i : Obj)
    (hd : decodeLeaf parse lv = .ok k t e i) :
    (st.get? k = none → (logScanner.Leaf parse st lv).writes = [(k, ⟨e, [i]⟩)]) ∧
    (∀ cr s ct, st.get? k = some cr →
      lookupStr cr.Entry "entry-timestamp" = some s → parse s = some ct →
      ((t < ct → (logScanner.Leaf parse st lv).writes = []) ∧
       (ct < t → (logScanner.Leaf parse st lv).writes = [(k, ⟨e, [i]⟩)]) ∧
       (t = ct → (logScanner.Leaf parse st lv).writes = [(k, cr.add i)] ∧
         (itemMem i cr.Items = true →
           (logScanner.Leaf parse st lv).writes = [(k, cr)])))) := by
  refine ⟨fun hg => ?_, fun cr s ct hg hs hp =>
    ⟨fun hlt => ?_, fun hgt => ?_, fun heq => ?_⟩⟩
  · simp [logScanner.Leaf, hd, hg]
  · simp [logScanner.Leaf, hd, hg, hs, hp, hlt]
  · simp [logScanner.Leaf, hd, hg, hs, hp, lt_asymm hgt, hgt]
  · subst heq
    refine ⟨?_, fun hm => ?_⟩
    · simp [logScanner.Leaf, hd, hg, hs, hp, lt_irrefl]
    · simp [logScanner.Leaf, hd, hg, hs, hp, lt_irrefl, record.add_of_mem hm]

/-- Witness for claim C6 at a concrete duplicate merge: the unchanged
record is still written once. -/
theorem claim_C6_witness :
    (logScanner.Leaf demoParse [("k1", ⟨demoEntry "k1" "2020", [demoItem 1]⟩)]
      (demoLeaf "k1" "2020" 1)).writes =
      [("k1", ⟨demoEntry "k1" "2020", [demoItem 1]⟩)] := by
  have h := ((claim_C6_exactly_one_write demoParse
      [("k1", ⟨demoEntry "k1" "2020", [demoItem 1]⟩)] (demoLeaf "k1" "2020" 1)
      "k1" 2020 (demoEntry "k1" "2020") (demoItem 1)
      (by simp [decodeLeaf, demoLeaf, demoParse, demoEntry, demoItem, lookupObj,
        lookupStr, List.lookup])).2
    ⟨demoEntry "k1" "2020", [demoItem 1]⟩ "2020" 2020
    (by simp [Store.get?_cons])
    (by simp [lookupStr, demoEntry, List.lookup])
    (by simp [demoParse])).2.2 rfl
  exact h.2 (by simp [itemMem, itemEq_refl])

/-- Claim C9: every operation producing or mutating a record preserves
pairwise structural distinctness of its Items — create and replace produce
a singleton list, and merge adds an item only when absent, appending at the
end (insertion order preserved, first occurrence kept) and keeping the
Entry. -/
theorem claim_C9_items_distinct (cr : record) (i : Obj)
    (h : distinctItems cr.Items) :
    distinctItems [i] ∧
    distinctItems (cr.add i).Items ∧
    (cr.add i).Entry = cr.Entry ∧
    (itemMem i cr.Items = true → cr.add i = cr) ∧
    (itemMem i cr.Items = false → (cr.add i).Items = cr.Items ++ [i]) := by
  refine ⟨by simp [distinctItems], ?_, record.add_Entry cr i,
    fun hm => record.add_of_mem hm, fun hm => record.add_of_not_mem hm⟩
  unfold record.add
  by_cases hm : itemMem i cr.Items = true
  · simpa [hm] using h
  · have hm' : itemMem i cr.Items = false := Bool.eq_false_iff.mpr hm
    rw [hm', if_neg (show ¬(false = true) from by simp)]
    unfold distinctItems at h ⊢
    rw [List.pairwise_append]
    have hall : ∀ x ∈ cr.Items, itemEq i x = false := by
      intro x hx
      have hmm := hm'
      simp only [itemMem, List.any_eq_false] at hmm
      simpa using hmm x hx
    refine ⟨h, by simp, ?_⟩
    intro a ha b hb
    have hb' : b = i := by simpa using hb
    rw [hb', itemEq_symm]
    exact hall a ha

/-- Witness for claim C9 at a concrete merge of a fresh item. -/
theorem claim_C9_witness :
    distinctItems ((record.mk (demoEntry "k1" "2020") [demoItem 1]).add (demoItem 2)).Items := by
  have h := (claim_C9_items_distinct ⟨demoEntry "k1" "2020", [demoItem 1]⟩ (demoItem 2)
    (by simp [distinctItems])).2.1
  exact h

/-- A leaf whose decoded Entry has a parsable timestamp but no `key`
field. -/
def demoLeafNoKey : Except String Obj :=
  .ok [("Entry", .obj [("entry-timestamp", .str "2020")]), ("Item", .obj [])]

/-- A leaf whose decoded Entry has a `key` but no `entry-timestamp`
field. -/
def demoLeafNoTs : Except String Obj :=
  .ok [("Entry", .obj [("key", .str "k1")]), ("Item", .obj [])]

/-- A leaf whose decoded Entry has a `key` and an unparsable
`entry-timestamp`. -/
def demoLeafBadTs : Except String Obj :=
  .ok [("Entry", .obj [("key", .str "k1"), ("entry-timestamp", .str "garbage")]),
       ("Item", .obj [])]

/-- Counterexample to claim C8: a leaf whose decoded Entry lacks the `key`
field does not surface a decode error to the driver as an error return —
the unchecked type assertion `e["key"].(string)` (main.go line 137) panics
instead. -/
theorem claim_C8_counterexample :
    (logScanner.Leaf demoParse [] demoLeafNoKey).outcome ≠ .errReturn ∧
    (logScanner.Leaf demoParse [] demoLeafNoKey).outcome = .panicked := by
  constructor <;>
    simp [logScanner.Leaf, decodeLeaf, demoLeafNoKey, demoParse, lookupObj,
      lookupStr, List.lookup]

/-- Claim C8 as amended: malformed JSON and string-valued but unparsable
`entry-timestamp` fields return an error to the driver and abort the scan;
a missing (or non-string) `entry-timestamp` or `key` field instead panics
the process at the failed type assertion — also aborting the scan, but not
through an error return. -/
theorem claim_C8_amended_decode_failures (parse : String → Option Int) :
    (∀ (st : Store) (msg : String) (rest : List (Except String Obj)),
      (logScanner.Leaf parse st (.error msg)).outcome = .errReturn ∧
      runScan parse st (.error msg :: rest) = st) ∧
    (∀ (st : Store) (l e : Obj) (ts : String) (rest : List (Except String Obj)),
      lookupObj l "Entry" = some e → lookupStr e "entry-timestamp" = some ts →
      parse ts = none →
      (logScanner.Leaf parse st (.ok l)).outcome = .errReturn ∧
      runScan parse st (.ok l :: rest) = st) ∧
    (∀ (st : Store) (l e : Obj) (rest : List (Except String Obj)),
      lookupObj l "Entry" = some e → lookupStr e "entry-timestamp" = none →
      (logScanner.Leaf parse st (.ok l)).outcome = .panicked ∧
      runScan parse st (.ok l :: rest) = st) ∧
    (∀ (st : Store) (l e : Obj) (ts : String) (t : Int)
        (rest : List (Except String Obj)),
      lookupObj l "Entry" = some e → lookupStr e "entry-timestamp" = some ts →
      parse ts = some t → lookupStr e "key" = none →
      (logScanner.Leaf parse st (.ok l)).outcome = .panicked ∧
      runScan parse st (.ok l :: rest) = st) := by
  refine ⟨fun st msg rest => ?_, fun st l e ts rest hE hts hp => ?_,
    fun st l e rest hE hts => ?_, fun st l e ts t rest hE hts hp hk => ?_⟩
  · have hL : logScanner.Leaf parse st (.error msg) = ⟨.errReturn, st, []⟩ := by
      simp [logScanner.Leaf, decodeLeaf]
    exact ⟨by rw [hL], by simp [runScan, hL]⟩
  · have hL : logScanner.Leaf parse st (.ok l) = ⟨.errReturn, st, []⟩ := by
      simp [logScanner.Leaf, decodeLeaf, hE, hts, hp]
    exact ⟨by rw [hL], by simp [runScan, hL]⟩
  · have hL : logScanner.Leaf parse st (.ok l) = ⟨.panicked, st, []⟩ := by
      simp [logScanner.Leaf, decodeLeaf, hE, hts]
    exact ⟨by rw [hL], by simp [runScan, hL]⟩
  · have hL : logScanner.Leaf parse st (.ok l) = ⟨.panicked, st, []⟩ := by
      simp [logScanner.Leaf, decodeLeaf, hE, hts, hp, hk]
    exact ⟨by rw [hL], by simp [runScan, hL]⟩

/-- Witness for the amended claim C8 at concrete failing leaves. -/
theorem claim_C8_witness :
    (logScanner.Leaf demoParse [] (.error "malformed")).outcome = .errReturn ∧
    (logScanner.Leaf demoParse [] demoLeafBadTs).outcome = .errReturn ∧
    (logScanner.Leaf demoParse [] demoLeafNoTs).outcome = .panicked ∧
    (logScanner.Leaf demoParse [] demoLeafNoKey).outcome = .panicked ∧
    runScan demoParse [] [.error "malformed", demoLeaf "k1" "2020" 1] = [] := by
  obtain ⟨h1, h2, h3, h4⟩ := claim_C8_amended_decode_failures demoParse
  refine ⟨(h1 [] "malformed" []).1, ?_, ?_, ?_, (h1 [] "malformed" [demoLeaf "k1" "2020" 1]).2⟩
  · exact (h2 [] [("Entry", .obj [("key", .str "k1"), ("entry-timestamp", .str "garbage")]),
        ("Item", .obj [])] [("key", .str "k1"), ("entry-timestamp", .str "garbage")] "garbage" []
      (by simp [lookupObj, List.lookup])
      (by simp [lookupStr, List.lookup]) rfl).1
  · exact (h3 [] [("Entry", .obj [("key", .str "k1")]), ("Item", .obj [])]
      [("key", .str "k1")] []
      (by simp [lookupObj, List.lookup])
      (by simp [lookupStr, List.lookup])).1
  · exact (h4 [] [("Entry", .obj [("entry-timestamp", .str "2020")]), ("Item", .obj [])]
      [("entry-timestamp", .str "2020")] "2020" 2020 []
      (by simp [lookupObj, List.lookup])
      (by simp [lookupStr, List.lookup])
      (by simp [demoParse])
      (by simp [lookupStr, List.lookup])).1

/-! ## The byte-level view of `mapInfo.getLeaf` (claims C7 and C10) -/

/-- Raw leaf value bytes as stored in the backing Trillian map. -/
abbrev Bytes := List Nat

/-- The slice `GetMapLeavesResponse.MapLeafInclusion`, each inclusion
flattened to the only field the mapper reads from it,
`inclusion.Leaf.LeafValue`. -/
structure GetLeavesResponse where
  MapLeafInclusion : List Bytes

/-- How `mapInfo.getLeaf` ends at the byte level. -/
inductive GetLeafResult where
  | err : GetLeafResult
  | panicked : GetLeafResult
  | absent : GetLeafResult
  | found (r : record) : GetLeafResult

/-- Embeds `mapInfo.getLeaf` (main.go lines 80–107) at the byte level.  The
input is the result of the `GetLeaves` call (`Except.error` embeds a
transport error); `unmarshal` embeds `json.Unmarshal` into `record`
(library code, kept abstract).  Line 93 indexes `resp.MapLeafInclusion[0]`
without checking the slice length: an empty slice is an
index-out-of-range panic, embedded by `.panicked`.  A zero-length leaf
value is returned as `nil, nil` (`.absent`, line 97). -/
def mapInfo.getLeaf (unmarshal : Bytes → Option record)
    (resp : Except String GetLeavesResponse) : GetLeafResult :=
  match resp with
  | .error _ => .err
  | .ok r =>
    match r.MapLeafInclusion[0]? with
    | none => .panicked
    | some l =>
      if l.length = 0 then .absent
      else
        match unmarshal l with
        | none => .err
        | some r2 => .found r2

/-- Modelled from the spec: the backing Trillian map service (an external
collaborator, not part of this repository) answers `GetLeaves` for a single
index with "an inclusion result that embeds the value bytes (empty if never
written)" (spec §6).  `m` is the map's written-leaf state. -/
def trillianGetLeaves (m : List (Bytes × Bytes)) (index : Bytes) : GetLeavesResponse :=
  ⟨[(m.lookup index).getD []]⟩

/-- Claim C7 is violated by the code (evidence for the code_bug verdict):
reading a key whose index was never written and reading a key whose index
holds a zero-length leaf value both come back `absent` from
`mapInfo.getLeaf` — the two cases are conflated, exactly what the FIXME on
main.go line 95 concedes. -/
theorem claim_C7_absent_conflated (unmarshal : Bytes → Option record)
    (hash : String → Bytes) (k : String) :
    mapInfo.getLeaf unmarshal (.ok (trillianGetLeaves [] (hash k))) = .absent ∧
    mapInfo.getLeaf unmarshal (.ok (trillianGetLeaves [(hash k, [])] (hash k))) = .absent := by
  constructor <;> simp [mapInfo.getLeaf, trillianGetLeaves, List.lookup]

/-- Claim C10: `mapInfo.getLeaf` indexes `MapLeafInclusion[0]` without an
emptiness check — a `GetLeaves` response carrying no inclusion panics
(out-of-bounds) rather than reaching any error return, and conversely no
response with at least one inclusion can panic there. -/
theorem claim_C10_empty_response_panics (unmarshal : Bytes → Option record) :
    (∀ resp : GetLeavesResponse, resp.MapLeafInclusion = [] →
      mapInfo.getLeaf unmarshal (.ok resp) = .panicked) ∧
    (∀ resp : GetLeavesResponse, resp.MapLeafInclusion ≠ [] →
      mapInfo.getLeaf unmarshal (.ok resp) ≠ .panicked) := by
  constructor
  · intro resp h
    simp [mapInfo.getLeaf, h]
  · intro resp h
    obtain ⟨incl⟩ := resp
    cases incl with
    | nil => simp at h
    | cons l rest =>
      simp only [mapInfo.getLeaf, List.getElem?_cons_zero]
      by_cases hl : l.length = 0
      · simp [hl]
      · simp only [if_neg hl]
        cases hu : unmarshal l <;> simp

/-- Witness for claim C10 at concrete responses. -/
theorem claim_C10_witness :
    mapInfo.getLeaf (fun _ => none) (.ok ⟨[]⟩) = .panicked ∧
    mapInfo.getLeaf (fun _ => none) (.ok ⟨[[]]⟩) ≠ .panicked :=
  ⟨(claim_C10_empty_response_panics (fun _ => none)).1 ⟨[]⟩ rfl,
   (claim_C10_empty_response_panics (fun _ => none)).2 ⟨[[]]⟩ (by simp)⟩

end Mapper
